import Mathlib

/-!
# Verification of the csvdatafilter pipeline

Shallow embedding of the core pipeline of the repository:

* `src/filter_instagram.py` — word-list loading, text normalization and the
  gender/business classifier, plus the row-filtering stage;
* `src/clean_data.py` — delimiter detection, footer detection and the
  column-level cleaning steps.

Python string operations are modelled structurally over the character list
of a string (the byte-position based Lean `String` functions do not reduce in
the kernel); each definition carries a comment naming the source function it
embeds.
-/

namespace CsvDataFilter

/-! ## String primitives modelling Python `str` operations -/

/-- Python `str.strip()`: remove whitespace from both ends. -/
def pyStrip (s : String) : String :=
  ⟨((s.data.dropWhile Char.isWhitespace).reverse.dropWhile Char.isWhitespace).reverse⟩

/-- Python `str.lower()` on the alphabets this program handles: ASCII
`A`–`Z` and the Cyrillic capitals `А`–`Я`, `Ё`, `Ї`, `І`, `Є`, `Ґ`;
other characters are unchanged. -/
def pyLowerChar (c : Char) : Char :=
  if 'A' ≤ c ∧ c ≤ 'Z' then Char.ofNat (c.toNat + 32)
  else if 'А' ≤ c ∧ c ≤ 'Я' then Char.ofNat (c.toNat + 32)
  else if c = 'Ё' then 'ё'
  else if c = 'Ї' then 'ї'
  else if c = 'І' then 'і'
  else if c = 'Є' then 'є'
  else if c = 'Ґ' then 'ґ'
  else c

/-- Python `str.lower()` (character-wise). -/
def pyLower (s : String) : String := ⟨s.data.map pyLowerChar⟩

/-- Replace every occurrence of a nonempty pattern, left to right,
modelling Python `str.replace` (an empty pattern leaves the list unchanged;
the program only ever replaces single characters).  The recursion is fueled
so that it stays structural: every step consumes at least one character, so
`l.length` units of fuel always suffice. -/
def replaceCharsFuel (pat rep : List Char) : Nat → List Char → List Char
  | _, [] => []
  | 0, l => l
  | fuel + 1, c :: rest =>
    if pat ≠ [] ∧ pat.isPrefixOf (c :: rest) then
      rep ++ replaceCharsFuel pat rep fuel ((c :: rest).drop pat.length)
    else
      c :: replaceCharsFuel pat rep fuel rest

/-- Python `s.replace(pat, rep)`. -/
def pyReplace (s pat rep : String) : String :=
  ⟨replaceCharsFuel pat.data rep.data s.data.length s.data⟩

/-- Python `s.startswith(p)`. -/
def pyStartsWith (s p : String) : Bool := p.data.isPrefixOf s.data

/-- Python `s.endswith(p)`. -/
def pyEndsWith (s p : String) : Bool := p.data.isSuffixOf s.data

/-- Contiguous-substring test over character lists. -/
def containsSubChars (pat : List Char) : List Char → Bool
  | [] => pat.isEmpty
  | c :: rest => pat.isPrefixOf (c :: rest) || containsSubChars pat rest

/-- Python `pat in s` (substring containment). -/
def containsSub (s pat : String) : Bool := containsSubChars pat.data s.data

/-- Split a character list at every character satisfying `p`
(pieces may be empty, like `re.split` on single characters). -/
def splitChars (p : Char → Bool) : List Char → List (List Char)
  | [] => [[]]
  | c :: rest =>
    let r := splitChars p rest
    if p c then [] :: r
    else match r with
      | [] => [[c]]
      | t :: ts => (c :: t) :: ts

/-- Python `len(s)` (number of characters). -/
def pyLen (s : String) : Nat := s.data.length

/-- Python `s.count(c)` for a single character. -/
def countChar (s : String) (c : Char) : Nat := s.data.count c

/-! ## `src/filter_instagram.py` -/

/-- Embeds `load_names_from_file` (src/filter_instagram.py, lines 12–20).

The file system is made explicit: `none` models a missing file
(`FileNotFoundError`), `some lines` the lines of the file (without their
terminators, which `strip` would discard anyway).  The result pairs the
loaded entries with a flag recording whether the warning was printed.
The Python set comprehension of the source — strip and lowercase each
line, skipping lines that are blank after stripping or start with the
comment mark — is modelled as a list; every later use is a membership
test, so duplicates and order are irrelevant. -/
def load_names_from_file (file : Option (List String)) : List String × Bool :=
  match file with
  | none => ([], true)
  | some lines =>
    ((lines.filter (fun line => pyStrip line ≠ "" && !(pyStartsWith line "#"))).map
        (fun line => pyLower (pyStrip line)),
      false)

/-- Embeds `FEMALE_ENDINGS` (src/filter_instagram.py, line 32). -/
def FEMALE_ENDINGS : List String :=
  ["a", "ya", "ia", "ina", "ova", "eva", "skaya", "ivna", "yivna", "ovna"]

/-- Embeds the `normalization_map` of `normalize_text` (src/filter_instagram.py,
lines 38–43), in source order. -/
def normalization_map : List (String × String) :=
  [("ᴀ", "a"), ("ʙ", "b"), ("ᴄ", "c"), ("ᴅ", "d"), ("ᴇ", "e"), ("ꜰ", "f"),
   ("ɢ", "g"), ("ʜ", "h"), ("ɪ", "i"), ("ᴊ", "j"), ("ᴋ", "k"), ("ʟ", "l"),
   ("ᴍ", "m"), ("ɴ", "n"), ("ᴏ", "o"), ("ᴘ", "p"), ("ǫ", "q"), ("ʀ", "r"),
   ("ꜱ", "s"), ("ᴛ", "t"), ("ᴜ", "u"), ("ᴠ", "v"), ("ᴡ", "w"), ("x", "x"),
   ("ʏ", "y"), ("ᴢ", "z")]

/-- Embeds `normalize_text` (src/filter_instagram.py, lines 36–46): apply the
substitutions of `normalization_map` one after the other. -/
def normalize_text (text : String) : String :=
  normalization_map.foldl (fun t p => pyReplace t p.1 p.2) text

/-- Character class of the regex `[a-zа-яёїієґ]` used in `classify_gender`
(src/filter_instagram.py, line 63). -/
def isTokenChar (c : Char) : Bool :=
  ('a' ≤ c && c ≤ 'z') || ('а' ≤ c && c ≤ 'я') ||
  c = 'ё' || c = 'ї' || c = 'і' || c = 'є' || c = 'ґ'

/-- Token extraction of `classify_gender` (src/filter_instagram.py,
lines 63–64): `re.sub(r'[^a-zа-яёїієґ]+', ' ', text)` followed by
`set(text.split())`.  The composition keeps exactly the maximal runs of
characters of the class, so the tokens are the nonempty pieces obtained by
splitting at every character outside the class.  The Python `set` is
modelled as a list: every later use is a membership test. -/
def tokenize (s : String) : List String :=
  ((splitChars (fun c => !(isTokenChar c)) s.data).map String.mk).filter (fun t => t ≠ "")

/-- The token set `parts` computed by `classify_gender` for a profile
(src/filter_instagram.py, lines 55–64). -/
def tokensOf (username fullname : String) : List String :=
  tokenize (normalize_text (pyLower (username ++ " " ++ fullname)))

/-- Priorities 3–6 of `classify_gender` (src/filter_instagram.py,
lines 66–85), parameterized by the word lists `MALE_NAMES_EXCEPTIONS`
(`maleExc`), `FEMALE_BUSINESS_KEYWORDS` (`femBiz`),
`FEMALE_NAMES` (`femNames`) and `FEMALE_ENDINGS` (`endings`). -/
def classify_from_parts (maleExc femBiz femNames endings : List String)
    (parts : List String) : String :=
  if femBiz.any (fun keyword => parts.contains keyword) then "female"
  else if maleExc.any (fun male_name => parts.contains male_name) then "keep"
  else if femNames.any (fun female_name => parts.contains female_name) then "female"
  else if parts.any (fun part =>
      decide (3 < pyLen part) && !(maleExc.contains part) &&
      endings.any (fun ending => pyEndsWith part ending)) then "female"
  else "keep"

/-- Embeds `classify_gender` (src/filter_instagram.py, lines 50–85), with the
process-wide word lists passed explicitly.  `combined_text` is
`pyLower (username ++ " " ++ fullname)`; if it strips to nothing the
function returns `"keep"` at once, otherwise it classifies the token set
extracted from the normalized text. -/
def classify_gender (maleExc femBiz femNames : List String)
    (username fullname : String) : String :=
  if pyStrip (pyLower (username ++ " " ++ fullname)) = "" then "keep"
  else classify_from_parts maleExc femBiz femNames FEMALE_ENDINGS
    (tokensOf username fullname)

/-- Python lookup `row.get(key, "")` on a `csv.DictReader` row, modelled as an
association list from field name to value. -/
def rowGet (row : List (String × String)) (key : String) : String :=
  match row.find? (fun p => p.1 = key) with
  | some p => p.2
  | none => ""

/-- Observable outcome of `filter_instagram_data`
(src/filter_instagram.py, lines 87–125): which files were touched, what was
written, and the counters that are reported. -/
structure FilterOutcome where
  outputFileCreated : Bool
  headerWritten : Bool
  writtenRows : List (List (String × String))
  errorReported : Bool
  total_processed : Nat
  removed_count : Nat
  remaining : Int
  deriving Repr, DecidableEq

/-- The `if not reader.fieldnames` test of `filter_instagram_data`
(src/filter_instagram.py, line 95): `csv.DictReader.fieldnames` is falsy
when the parse produced no header row (`None`) or an empty one (`[]`). -/
def headerMissing (fieldnames : Option (List String)) : Bool :=
  match fieldnames with
  | none => true
  | some l => l.isEmpty

/-- Embeds `filter_instagram_data` (src/filter_instagram.py, lines 87–125) on an
existing input file, abstracted over its parse: `fieldnames` is the header
`csv.DictReader` discovers and `rows` its data rows.  Both files are opened
before the header test — `open(output_file, 'w')` creates and truncates the
output file — so `outputFileCreated` is `true` on every path, including the
early `return` for a missing header. -/
def filter_instagram_data (maleExc femBiz femNames : List String)
    (fieldnames : Option (List String)) (rows : List (List (String × String))) :
    FilterOutcome :=
  if headerMissing fieldnames then
    { outputFileCreated := true, headerWritten := false, writtenRows := [],
      errorReported := true, total_processed := 0, removed_count := 0,
      remaining := 0 }
  else
    let isFemale := fun row =>
      classify_gender maleExc femBiz femNames
        (rowGet row "user_name") (rowGet row "full_name") = "female"
    let total := rows.length
    let removed := rows.countP (fun row => decide (isFemale row))
    { outputFileCreated := true, headerWritten := true,
      writtenRows := rows.filter (fun row => !(decide (isFemale row))),
      errorReported := false, total_processed := total,
      removed_count := removed,
      remaining := (total : Int) - (removed : Int) }

/-! ## `src/clean_data.py` -/

/-- Models `f.readline()` on the file contents: everything up to the first newline
(the newline itself contains neither separator, so it is immaterial for the
counts taken of this line). -/
def readFirstLine (contents : String) : String :=
  ⟨contents.data.takeWhile (fun c => c ≠ '\n')⟩

/-- Embeds `detect_csv_separator` (src/clean_data.py, lines 12–21): count `,` and
`;` in the first line and return `','` exactly when the comma count is
strictly larger. -/
def detect_csv_separator (contents : String) : Char :=
  let first_line := readFirstLine contents
  let comma_count := countChar first_line ','
  let semicolon_count := countChar first_line ';'
  if comma_count > semicolon_count then ',' else ';'

/-- The candidate test of `find_footer_start` (src/clean_data.py,
lines 26–34) on the string form of the first column of a row
(`str(row.iloc[0]).strip()`; a missing value prints as `"nan"`). -/
def isFooterCandidate (firstCol : String) : Bool :=
  let s := pyStrip firstCol
  pyStartsWith s "Found profiles count:" ||
  s = "IG DM BOT:" ||
  containsSub s "profiles max on free plan" ||
  containsSub s "max on free plan" ||
  s = "" ||
  s = "nan"

/-- The confirmation test of `find_footer_start` (src/clean_data.py,
lines 41–47): the candidate conditions again, plus a case-insensitive
`"socialdeck.ai"` containment. -/
def checkFooterRow (firstCol : String) : Bool :=
  let s := pyStrip firstCol
  pyStartsWith s "Found profiles count:" ||
  s = "IG DM BOT:" ||
  containsSub s "profiles max on free plan" ||
  containsSub s "max on free plan" ||
  s = "" ||
  s = "nan" ||
  containsSub (pyLower s) "socialdeck.ai"

/-- The confirmation loop `for j in range(i, min(i + 5, len(df)))` of
`find_footer_start` (src/clean_data.py, lines 38–49). -/
def footer_confirmed (rows : List String) (i : Nat) : Bool :=
  (List.range' i (min (i + 5) rows.length - i)).any
    (fun j => checkFooterRow (rows.getD j ""))

/-- Embeds `find_footer_start` (src/clean_data.py, lines 23–54).  A table is
modelled by the string forms of the first column of each row — the only data the
function inspects.  Returns the index of the first candidate row whose
confirmation window succeeds, `none` otherwise. -/
def find_footer_start (rows : List String) : Option Nat :=
  (List.range rows.length).find?
    (fun i => isFooterCandidate (rows.getD i "") && footer_confirmed rows i)

/-- The footer-removal step of `clean_csv` (src/clean_data.py, lines
67–76): `df = df.iloc[:footer_start]` when a footer start was found. -/
def apply_footer_removal (rows : List String) : List String :=
  match find_footer_start rows with
  | some i => rows.take i
  | none => rows

/-- Embeds `columns_to_remove` of `clean_csv` (src/clean_data.py, line 106). -/
def columns_to_remove : List String :=
  ["profileUrl", "avatarUrl", "isVerified", "followedByYou"]

/-- Embeds the `column_rename_map` of `clean_csv` (src/clean_data.py, lines 113–118)
as the function `df.rename` applies to every column label. -/
def renameColumn (c : String) : String :=
  if c = "userName" then "user_name"
  else if c = "fullName" then "full_name"
  else if c = "login" then "user_name"
  else if c = "name" then "full_name"
  else c

/-- The ensure-columns step of `clean_csv` (src/clean_data.py,
lines 131–136): assigning an empty string to a missing name column appends
it at the end, first for `user_name`, then for `full_name`. -/
def ensure_name_columns (cols : List String) : List String :=
  let cols1 := if "user_name" ∈ cols then cols else cols ++ ["user_name"]
  if "full_name" ∈ cols1 then cols1 else cols1 ++ ["full_name"]

/-- The column-structure part of `clean_csv` (src/clean_data.py,
lines 105–136): drop the columns of `columns_to_remove` that are present,
rename every label through `column_rename_map`, then create `user_name`
and `full_name` if absent. -/
def clean_columns (cols : List String) : List String :=
  ensure_name_columns
    ((cols.filter (fun c => !(columns_to_remove.contains c))).map renameColumn)

/-! ## Helper lemmas -/

/-- A list whose elements are all fixed by `f` is unchanged by `map f`. -/
lemma map_eq_self_of_fixed {α : Type} {f : α → α} {l : List α}
    (h : ∀ x ∈ l, f x = x) : l.map f = l := by
  induction l with
  | nil => rfl
  | cons a t ih =>
    simp only [List.map_cons, h a (List.mem_cons_self a t)]
    rw [ih (fun x hx => h x (List.mem_cons_of_mem a hx))]

/-- The value of `List.any` only depends on which elements satisfy the predicate. -/
lemma any_congr_mem {α : Type} {p q : α → Bool} {l₁ l₂ : List α}
    (hl : ∀ x, x ∈ l₁ ↔ x ∈ l₂) (hpq : ∀ x, p x = q x) :
    l₁.any p = l₂.any q := by
  rw [Bool.eq_iff_iff, List.any_eq_true, List.any_eq_true]
  constructor
  · rintro ⟨x, hx, hpx⟩; exact ⟨x, (hl x).mp hx, (hpq x) ▸ hpx⟩
  · rintro ⟨x, hx, hqx⟩; exact ⟨x, (hl x).mpr hx, (hpq x).symm ▸ hqx⟩

/-- Membership-equal lists agree on `contains`. -/
lemma contains_congr_mem {l₁ l₂ : List String}
    (hl : ∀ x, x ∈ l₁ ↔ x ∈ l₂) (k : String) :
    l₁.contains k = l₂.contains k := by
  rw [Bool.eq_iff_iff]
  constructor
  · intro h; exact List.elem_iff.mpr ((hl k).mp (List.elem_iff.mp h))
  · intro h; exact List.elem_iff.mpr ((hl k).mpr (List.elem_iff.mp h))

/-- A list containing two distinct elements satisfying `p` has `countP ≥ 2`. -/
lemma two_le_countP {α : Type} [DecidableEq α] {p : α → Bool} {l : List α}
    {a b : α} (hab : a ≠ b) (ha : a ∈ l) (hb : b ∈ l)
    (hpa : p a = true) (hpb : p b = true) : 2 ≤ l.countP p := by
  induction l with
  | nil => cases ha
  | cons c t ih =>
    rcases List.mem_cons.mp ha with rfl | hat
    · have hbt : b ∈ t := by
        rcases List.mem_cons.mp hb with h | h
        · exact absurd h.symm hab
        · exact h
      rw [List.countP_cons_of_pos p t hpa]
      have : 0 < t.countP p := List.countP_pos_iff.mpr ⟨b, hbt, hpb⟩
      omega
    · rcases List.mem_cons.mp hb with rfl | hbt
      · rw [List.countP_cons_of_pos p t hpb]
        have : 0 < t.countP p := List.countP_pos_iff.mpr ⟨a, hat, hpa⟩
        omega
      · have := ih hat hbt
        rw [List.countP_cons]
        omega

/-- If `pyStrip s` is empty then every character of `s` is whitespace. -/
lemma all_whitespace_of_pyStrip_eq_empty {s : String} (h : pyStrip s = "") :
    ∀ c ∈ s.data, c.isWhitespace = true := by
  have hdata : (((s.data.dropWhile Char.isWhitespace).reverse.dropWhile
      Char.isWhitespace).reverse) = [] := congrArg String.data h
  rw [List.reverse_eq_nil_iff, List.dropWhile_eq_nil_iff] at hdata
  have hdrop : ∀ c ∈ s.data.dropWhile Char.isWhitespace, c.isWhitespace = true :=
    fun c hc => hdata c (List.mem_reverse.mpr hc)
  intro c hc
  rw [← List.takeWhile_append_dropWhile Char.isWhitespace s.data] at hc
  rcases List.mem_append.mp hc with htake | hdrop'
  · exact List.mem_takeWhile_imp htake
  · exact hdrop c hdrop'

/-- A replacement whose pattern starts with a character that does not occur in the list
leaves the list unchanged. -/
lemma replaceCharsFuel_eq_self {p : Char} {ps rep : List Char} :
    ∀ (fuel : Nat) (l : List Char), p ∉ l →
      replaceCharsFuel (p :: ps) rep fuel l = l := by
  intro fuel
  induction fuel with
  | zero =>
    intro l _
    cases l with
    | nil => rfl
    | cons c rest => rfl
  | succ fuel ih =>
    intro l hp
    cases l with
    | nil => rfl
    | cons c rest =>
      have hpc : p ≠ c := fun hpc => hp (hpc ▸ List.mem_cons_self c rest)
      have hnots : ¬((p :: ps) ≠ [] ∧ (p :: ps).isPrefixOf (c :: rest) = true) := by
        rintro ⟨-, hpre⟩
        have : p = c ∧ (ps.isPrefixOf rest = true) := by
          simpa [List.isPrefixOf] using hpre
        exact hpc this.1
      simp only [replaceCharsFuel, if_neg hnots]
      rw [ih rest (fun hmem => hp (List.mem_cons_of_mem c hmem))]

/-- Folding replacements whose patterns start with non-whitespace characters
over an all-whitespace string changes nothing. -/
lemma foldl_replace_of_all_whitespace (maps : List (String × String))
    (text : String) (h : ∀ c ∈ text.data, c.isWhitespace = true)
    (hmap : ∀ pr ∈ maps, pr.1.data ≠ [] ∧ (pr.1.data.headD ' ').isWhitespace = false) :
    maps.foldl (fun t p => pyReplace t p.1 p.2) text = text := by
  induction maps with
  | nil => rfl
  | cons pr rest ih =>
    have hpr := hmap pr (List.mem_cons_self pr rest)
    have hstep : pyReplace text pr.1 pr.2 = text := by
      obtain ⟨p, ps, hdata⟩ : ∃ p ps, pr.1.data = p :: ps := by
        cases hd : pr.1.data with
        | nil => exact absurd hd hpr.1
        | cons p ps => exact ⟨p, ps, rfl⟩
      have hpws : p.isWhitespace = false := by
        have := hpr.2
        rw [hdata] at this
        simpa using this
      have hpnot : p ∉ text.data := fun hmem => by
        rw [h p hmem] at hpws
        cases hpws
      unfold pyReplace
      rw [hdata, replaceCharsFuel_eq_self _ _ hpnot]
    simp only [List.foldl_cons, hstep]
    exact ih (fun pr' hpr' => hmap pr' (List.mem_cons_of_mem pr hpr'))

/-- The function `normalize_text` fixes strings consisting only of whitespace: every
pattern of `normalization_map` starts with a non-whitespace character. -/
lemma normalize_text_of_all_whitespace {text : String}
    (h : ∀ c ∈ text.data, c.isWhitespace = true) : normalize_text text = text :=
  foldl_replace_of_all_whitespace normalization_map text h (by decide)

/-- Whitespace characters are outside the token character class. -/
lemma not_isTokenChar_of_whitespace {c : Char} (h : c.isWhitespace = true) :
    isTokenChar c = false := by
  have hc : ((c = ' ' ∨ c = '\t') ∨ c = '\x0d') ∨ c = '\n' := by
    simpa [Char.isWhitespace] using h
  rcases hc with ((rfl | rfl) | rfl) | rfl <;> decide

/-- When every character is a split point, every piece is empty. -/
lemma splitChars_all_empty {p : Char → Bool} :
    ∀ {l : List Char}, (∀ c ∈ l, p c = true) →
      ∀ t ∈ splitChars p l, t = [] := by
  intro l
  induction l with
  | nil =>
    intro _ t ht
    simpa [splitChars] using ht
  | cons c rest ih =>
    intro h t ht
    have hc : p c = true := h c (List.mem_cons_self c rest)
    simp only [splitChars, hc, if_pos] at ht
    rcases List.mem_cons.mp ht with rfl | ht'
    · rfl
    · exact ih (fun c' hc' => h c' (List.mem_cons_of_mem c hc')) t ht'

/-- An all-whitespace string yields no tokens. -/
lemma tokenize_of_all_whitespace {s : String}
    (h : ∀ c ∈ s.data, c.isWhitespace = true) : tokenize s = [] := by
  unfold tokenize
  rw [List.filter_eq_nil_iff]
  intro t ht
  rcases List.mem_map.mp ht with ⟨piece, hpiece, rfl⟩
  have : piece = [] :=
    splitChars_all_empty
      (fun c hc => by
        rw [Bool.not_eq_true', not_isTokenChar_of_whitespace (h c hc)])
      piece hpiece
  simp [this]

/-- When the combined profile text strips to the empty string, the token
set of the profile is empty. -/
lemma tokensOf_of_strip_empty {username fullname : String}
    (h : pyStrip (pyLower (username ++ " " ++ fullname)) = "") :
    tokensOf username fullname = [] := by
  have hws := all_whitespace_of_pyStrip_eq_empty h
  unfold tokensOf
  rw [normalize_text_of_all_whitespace hws]
  exact tokenize_of_all_whitespace hws

/-- Every footer candidate satisfies the confirmation test as well: the
confirmation disjunction repeats the candidate conditions. -/
lemma checkFooterRow_of_isFooterCandidate {s : String}
    (h : isFooterCandidate s = true) : checkFooterRow s = true := by
  unfold isFooterCandidate at h
  unfold checkFooterRow
  simp only [Bool.or_eq_true, decide_eq_true_eq] at h ⊢
  tauto

/-- The confirmation window of `find_footer_start` contains the candidate
row itself, so every candidate inside the table is confirmed. -/
lemma footer_confirmed_of_candidate {rows : List String} {i : Nat}
    (hi : i < rows.length) (hc : isFooterCandidate (rows.getD i "") = true) :
    footer_confirmed rows i = true := by
  unfold footer_confirmed
  rw [List.any_eq_true]
  refine ⟨i, ?_, checkFooterRow_of_isFooterCandidate hc⟩
  rw [List.mem_range']
  exact ⟨0, by omega, by omega⟩

/-! ## Claim theorems -/

/-- C1: the claim says a single stray blank (or footer-like) row in the
middle of the data cannot truncate the real rows that follow it, because a
candidate must be confirmed by its 5-row window.  The window is inclusive
of the candidate, which always satisfies its own conditions, so the
confirmation is vacuous: on the table whose first-column values are
`["alice", "", "bob", "carol"]` — one stray blank row at index 1 amid real
data rows — `find_footer_start` confirms the blank row by itself and
`clean_csv` truncates away the real rows `"bob"` and `"carol"`. -/
theorem find_footer_start_truncates_after_stray_blank_row :
    isFooterCandidate "alice" = false ∧
    isFooterCandidate "bob" = false ∧
    isFooterCandidate "carol" = false ∧
    isFooterCandidate "" = true ∧
    find_footer_start ["alice", "", "bob", "carol"] = some 1 ∧
    apply_footer_removal ["alice", "", "bob", "carol"] = ["alice"] := by
  decide

/-- C4 (corrected): `detect_csv_separator` counts `,` and `;` in the first
line only and returns `','` exactly when the comma count is strictly
larger; on a tie it returns `';'`, not `','`. -/
theorem detect_csv_separator_characterization (contents : String) :
    (detect_csv_separator contents = ',' ↔
      countChar (readFirstLine contents) ';' < countChar (readFirstLine contents) ',') ∧
    (detect_csv_separator contents = ';' ↔
      ¬ countChar (readFirstLine contents) ';' < countChar (readFirstLine contents) ',') := by
  unfold detect_csv_separator
  by_cases h : countChar (readFirstLine contents) ';' <
      countChar (readFirstLine contents) ','
  · simp [h, Nat.lt_iff_add_one_le]
  · simp [h]

/-- C4 counterexample: on the file `"id\nrow,1"` the first line `"id"` has
zero commas and zero semicolons — a tie — and the detector returns `';'`,
not the `','` the claim requires. -/
theorem detect_csv_separator_tie_returns_semicolon :
    countChar (readFirstLine "id\nrow,1") ',' =
      countChar (readFirstLine "id\nrow,1") ';' ∧
    detect_csv_separator "id\nrow,1" = ';' := by
  decide

/-- C5 counterexample: on an input whose parse yields no header row
(`csv.DictReader.fieldnames` falsy), `filter_instagram_data` reports the
error — but it has already opened the output file for writing, so an
(empty) output file is created on disk, contradicting "produces no output
file". -/
theorem filter_no_header_still_creates_output_file :
    headerMissing none = true ∧
    (filter_instagram_data [] [] [] none []).errorReported = true ∧
    (filter_instagram_data [] [] [] none []).outputFileCreated = true := by
  decide

/-- C5 (corrected): on an input with no discoverable header row the filter
stage reports an error and writes nothing — no header row and no data rows
— but the output file itself is created (opened with mode `'w'` before the
header check) and left empty on disk. -/
theorem filter_no_header_outcome (maleExc femBiz femNames : List String)
    (fieldnames : Option (List String)) (rows : List (List (String × String)))
    (h : headerMissing fieldnames = true) :
    filter_instagram_data maleExc femBiz femNames fieldnames rows =
      { outputFileCreated := true, headerWritten := false, writtenRows := [],
        errorReported := true, total_processed := 0, removed_count := 0,
        remaining := 0 } := by
  unfold filter_instagram_data
  rw [if_pos h]

/-- Witness for the corrected C5 theorem at a concrete input: an empty file
(no header, no rows). -/
theorem filter_no_header_outcome_witness :
    filter_instagram_data [] [] [] none [] =
      { outputFileCreated := true, headerWritten := false, writtenRows := [],
        errorReported := true, total_processed := 0, removed_count := 0,
        remaining := 0 } :=
  filter_no_header_outcome [] [] [] none [] (by decide)

/-- C7: the statistics reported by `filter_instagram_data` always satisfy
`remaining = total_processed − removed`, with `removed ≤ total_processed`
and all three counters nonnegative (`total_processed` and `removed_count`
are naturals; `remaining` is their integer difference). -/
theorem filter_stats_consistent (maleExc femBiz femNames : List String)
    (fieldnames : Option (List String)) (rows : List (List (String × String))) :
    (filter_instagram_data maleExc femBiz femNames fieldnames rows).removed_count ≤
      (filter_instagram_data maleExc femBiz femNames fieldnames rows).total_processed ∧
    (filter_instagram_data maleExc femBiz femNames fieldnames rows).remaining =
      ((filter_instagram_data maleExc femBiz femNames fieldnames rows).total_processed : Int) -
      ((filter_instagram_data maleExc femBiz femNames fieldnames rows).removed_count : Int) ∧
    0 ≤ (filter_instagram_data maleExc femBiz femNames fieldnames rows).remaining := by
  unfold filter_instagram_data
  by_cases h : headerMissing fieldnames = true
  · rw [if_pos h]
    refine ⟨?_, ?_, ?_⟩ <;> decide
  · rw [if_neg h]
    have hle := List.countP_le_length
      (fun row => decide (classify_gender maleExc femBiz femNames
        (rowGet row "user_name") (rowGet row "full_name") = "female"))
      (l := rows)
    refine ⟨hle, rfl, ?_⟩
    simp only
    omega

/-- C8: a missing word-list file loads as the empty set with a (non-fatal)
warning; an existing file contributes exactly the lowercased, trimmed forms
of its lines that are nonempty after trimming and do not start with `#`,
with no warning. -/
theorem load_names_from_file_spec :
    load_names_from_file none = ([], true) ∧
    ∀ lines : List String,
      (load_names_from_file (some lines)).2 = false ∧
      ∀ x : String, x ∈ (load_names_from_file (some lines)).1 ↔
        ∃ l ∈ lines, pyStrip l ≠ "" ∧ pyStartsWith l "#" = false ∧
          x = pyLower (pyStrip l) := by
  refine ⟨rfl, fun lines => ⟨rfl, fun x => ?_⟩⟩
  unfold load_names_from_file
  simp only [List.mem_map, List.mem_filter, Bool.and_eq_true, decide_eq_true_eq,
    Bool.not_eq_true']
  constructor
  · rintro ⟨l, ⟨hl, hne, hhash⟩, rfl⟩
    exact ⟨l, hl, hne, hhash, rfl⟩
  · rintro ⟨l, hl, hne, hhash, rfl⟩
    exact ⟨l, ⟨hl, hne, hhash⟩, rfl⟩

/-- The function `renameColumn` maps every label to `user_name`, to `full_name`, or to
itself. -/
lemma renameColumn_cases (c : String) :
    renameColumn c = "user_name" ∨ renameColumn c = "full_name" ∨
      renameColumn c = c := by
  unfold renameColumn
  split_ifs <;> simp

/-- The function `renameColumn` is idempotent: its outputs are never rename sources. -/
lemma renameColumn_idem (c : String) :
    renameColumn (renameColumn c) = renameColumn c := by
  rcases renameColumn_cases c with h | h | h
  · rw [h]; decide
  · rw [h]; decide
  · rw [h]; exact h

/-- The function `renameColumn` never produces a label from the drop list. -/
lemma renameColumn_not_removed {c : String}
    (h : columns_to_remove.contains c = false) :
    columns_to_remove.contains (renameColumn c) = false := by
  rcases renameColumn_cases c with hr | hr | hr <;> rw [hr]
  · decide
  · decide
  · exact h

/-- Members of `ensure_name_columns cols` come from `cols` or are one of
the two created labels. -/
lemma mem_of_mem_ensure {cols : List String} {x : String}
    (h : x ∈ ensure_name_columns cols) :
    x ∈ cols ∨ x = "user_name" ∨ x = "full_name" := by
  unfold ensure_name_columns at h
  by_cases h1 : "user_name" ∈ cols
  · rw [if_pos h1] at h
    by_cases h2 : "full_name" ∈ cols
    · rw [if_pos h2] at h; tauto
    · rw [if_neg h2] at h
      simp only [List.mem_append, List.mem_singleton] at h; tauto
  · rw [if_neg h1] at h
    by_cases h2 : "full_name" ∈ cols ++ ["user_name"]
    · rw [if_pos h2] at h
      simp only [List.mem_append, List.mem_singleton] at h; tauto
    · rw [if_neg h2] at h
      simp only [List.mem_append, List.mem_singleton] at h; tauto

/-- The step `ensure_name_columns` always yields both mandatory labels. -/
lemma mandatory_mem_ensure (cols : List String) :
    "user_name" ∈ ensure_name_columns cols ∧
      "full_name" ∈ ensure_name_columns cols := by
  unfold ensure_name_columns
  by_cases h1 : "user_name" ∈ cols
  · rw [if_pos h1]
    by_cases h2 : "full_name" ∈ cols
    · rw [if_pos h2]; exact ⟨h1, h2⟩
    · rw [if_neg h2]
      exact ⟨List.mem_append_left _ h1,
        List.mem_append_right _ (List.mem_singleton_self _)⟩
  · rw [if_neg h1]
    by_cases h2 : "full_name" ∈ cols ++ ["user_name"]
    · rw [if_pos h2]
      exact ⟨List.mem_append_right _ (List.mem_singleton_self _), h2⟩
    · rw [if_neg h2]
      exact ⟨List.mem_append_left _
          (List.mem_append_right _ (List.mem_singleton_self _)),
        List.mem_append_right _ (List.mem_singleton_self _)⟩

/-- The step `ensure_name_columns` changes nothing when both labels are present. -/
lemma ensure_eq_self {cols : List String} (h1 : "user_name" ∈ cols)
    (h2 : "full_name" ∈ cols) : ensure_name_columns cols = cols := by
  simp [ensure_name_columns, h1, h2]

/-- Every label produced by `clean_columns` is a fixed point of the rename
map and is outside the drop list. -/
lemma clean_columns_fixed {cols : List String} :
    ∀ x ∈ clean_columns cols,
      renameColumn x = x ∧ columns_to_remove.contains x = false := by
  intro x hx
  unfold clean_columns at hx
  rcases mem_of_mem_ensure hx with hx' | rfl | rfl
  · rcases List.mem_map.mp hx' with ⟨c, hc, rfl⟩
    have hcf : columns_to_remove.contains c = false := by
      simpa using (List.mem_filter.mp hc).2
    exact ⟨renameColumn_idem c, renameColumn_not_removed hcf⟩
  · exact ⟨by decide, by decide⟩
  · exact ⟨by decide, by decide⟩

/-- C9: the column transformation of `clean_csv` is idempotent — run on an
already-cleaned header (columns renamed, dropped columns absent) it drops
nothing, renames nothing, reintroduces nothing, and cannot error (it is a
total function): the second application is the identity. -/
theorem clean_columns_idempotent (cols : List String) :
    clean_columns (clean_columns cols) = clean_columns cols := by
  have hfix : ∀ x ∈ clean_columns cols,
      renameColumn x = x ∧ columns_to_remove.contains x = false :=
    clean_columns_fixed
  have hfilter : (clean_columns cols).filter
      (fun c => !(columns_to_remove.contains c)) = clean_columns cols :=
    List.filter_eq_self.mpr (fun a ha => by rw [(hfix a ha).2]; rfl)
  have hmap : (clean_columns cols).map renameColumn = clean_columns cols :=
    map_eq_self_of_fixed (fun x hx => (hfix x hx).1)
  have hu : "user_name" ∈ clean_columns cols := by
    unfold clean_columns
    exact (mandatory_mem_ensure _).1
  have hf : "full_name" ∈ clean_columns cols := by
    unfold clean_columns
    exact (mandatory_mem_ensure _).2
  show ensure_name_columns (((clean_columns cols).filter
      (fun c => !(columns_to_remove.contains c))).map renameColumn) =
    clean_columns cols
  rw [hfilter, hmap, ensure_eq_self hu hf]

/-- The step `ensure_name_columns` only ever appends, so counts cannot drop. -/
lemma count_le_append (l l' : List String) (x : String) :
    l.count x ≤ (l ++ l').count x := by
  rw [List.count_append]
  exact Nat.le_add_right _ _

lemma count_le_ensure (l : List String) (x : String) :
    l.count x ≤ (ensure_name_columns l).count x := by
  unfold ensure_name_columns
  by_cases h1 : "user_name" ∈ l
  · rw [if_pos h1]
    by_cases h2 : "full_name" ∈ l
    · rw [if_pos h2]
    · rw [if_neg h2]; exact count_le_append _ _ _
  · rw [if_neg h1]
    by_cases h2 : "full_name" ∈ l ++ ["user_name"]
    · rw [if_pos h2]; exact count_le_append _ _ _
    · rw [if_neg h2]
      exact le_trans (count_le_append l ["user_name"] x)
        (count_le_append (l ++ ["user_name"]) ["full_name"] x)

/-- C10: when both `userName` and `login` are present, `df.rename` maps
both to `user_name` at once — no last-applied mapping wins — so the cleaned
header carries (at least) two columns named `user_name` and is not
duplicate-free. -/
theorem clean_columns_duplicate_user_name (cols : List String)
    (h1 : "userName" ∈ cols) (h2 : "login" ∈ cols) :
    2 ≤ (clean_columns cols).count "user_name" := by
  unfold clean_columns
  have hcount : 2 ≤ ((cols.filter
      (fun c => !(columns_to_remove.contains c))).map renameColumn).count
      "user_name" := by
    rw [List.count_eq_countP, List.countP_map]
    refine two_le_countP (a := "userName") (b := "login") (by decide) ?_ ?_ ?_ ?_
    · exact List.mem_filter.mpr ⟨h1, by decide⟩
    · exact List.mem_filter.mpr ⟨h2, by decide⟩
    · decide
    · decide
  exact le_trans hcount (count_le_ensure _ _)

/-- Witness for C10 at the concrete header `["userName", "login"]`. -/
theorem clean_columns_duplicate_user_name_witness :
    2 ≤ (clean_columns ["userName", "login"]).count "user_name" :=
  clean_columns_duplicate_user_name ["userName", "login"] (by decide) (by decide)

/-- A word-list iteration finds no member of `parts` when no list entry is
a token. -/
lemma any_contains_eq_false {ks parts : List String}
    (h : ∀ k ∈ ks, k ∉ parts) :
    (ks.any fun k => parts.contains k) = false := by
  rw [List.any_eq_false]
  intro k hk hc
  exact h k hk (List.elem_iff.mp hc)

/-- A word-list iteration finds a member of `parts` as soon as one shared
element exists. -/
lemma any_contains_eq_true {ks parts : List String} {t : String}
    (hk : t ∈ ks) (hp : t ∈ parts) :
    (ks.any fun k => parts.contains k) = true :=
  List.any_eq_true.mpr ⟨t, hk, List.elem_iff.mpr hp⟩

/-- C2 (corrected): when additionally no female-business keyword occurs
among the tokens, a token present in both the male exception set and the
female name set forces `keep`: the male-exception rule fires before the
female-name and ending rules. -/
theorem male_exception_dominates (maleExc femBiz femNames : List String)
    (username fullname t : String)
    (hb : ∀ k ∈ femBiz, k ∉ tokensOf username fullname)
    (ht : t ∈ tokensOf username fullname)
    (hm : t ∈ maleExc) (hfn : t ∈ femNames) :
    classify_gender maleExc femBiz femNames username fullname = "keep" := by
  unfold classify_gender
  by_cases hstrip : pyStrip (pyLower (username ++ " " ++ fullname)) = ""
  · rw [if_pos hstrip]
  · rw [if_neg hstrip]
    unfold classify_from_parts
    rw [any_contains_eq_false hb, any_contains_eq_true hm ht]
    simp

/-- Witness for the corrected C2 theorem: `sasha` in both the male exception
set and the female name set, no business keyword matching. -/
theorem male_exception_dominates_witness :
    classify_gender ["sasha"] [] ["sasha"] "sasha" "" = "keep" :=
  male_exception_dominates ["sasha"] [] ["sasha"] "sasha" "" "sasha"
    (by simp) (by decide) (by decide) (by decide)

/-- C2 counterexample: the token `"sasha"` is in both the male exception
set `["sasha"]` and the female name set `["sasha", "anna"]`, yet the
profile classifies `"female"`, because the other token `"shop"` hits the
female business keyword set, which is checked before the male exception
set — the exception does not dominate unconditionally, as the claim (which
quantifies over all word-list contents) requires. -/
theorem male_exception_beaten_by_business_keyword :
    "sasha" ∈ tokensOf "shop sasha" "" ∧
    "sasha" ∈ (["sasha"] : List String) ∧
    "sasha" ∈ (["sasha", "anna"] : List String) ∧
    classify_gender ["sasha"] ["shop"] ["sasha", "anna"] "shop sasha" "" =
      "female" ∧
    classify_gender ["sasha"] ["shop"] ["sasha", "anna"] "shop sasha" "" ≠
      "keep" := by
  decide

/-- C6: with the word-list contents fixed, `classify_gender` is a pure,
total Lean function of `(username, fullname)` — determinism and freedom
from exceptions hold by construction — it always returns one of the two
verdicts, and the verdict computed from the token and suffix collections
depends only on membership, never on iteration order or multiplicity
(Python iterates `set`s in unspecified order). -/
theorem classify_gender_deterministic_order_independent
    (maleExc femBiz femNames : List String) (username fullname : String)
    (parts₁ parts₂ ends₁ ends₂ : List String)
    (hp : ∀ x, x ∈ parts₁ ↔ x ∈ parts₂)
    (he : ∀ x, x ∈ ends₁ ↔ x ∈ ends₂) :
    classify_from_parts maleExc femBiz femNames ends₁ parts₁ =
      classify_from_parts maleExc femBiz femNames ends₂ parts₂ ∧
    (classify_gender maleExc femBiz femNames username fullname = "female" ∨
      classify_gender maleExc femBiz femNames username fullname = "keep") := by
  constructor
  · have h1 : ∀ ks : List String,
        (ks.any fun k => parts₁.contains k) =
          (ks.any fun k => parts₂.contains k) :=
      fun ks => any_congr_mem (fun _ => Iff.rfl) (contains_congr_mem hp)
    have hend : ∀ part : String,
        (ends₁.any fun ending => pyEndsWith part ending) =
          (ends₂.any fun ending => pyEndsWith part ending) :=
      fun part => any_congr_mem he (fun _ => rfl)
    have h4 : (parts₁.any fun part =>
        decide (3 < pyLen part) && !(maleExc.contains part) &&
        ends₁.any (fun ending => pyEndsWith part ending)) =
          (parts₂.any fun part =>
        decide (3 < pyLen part) && !(maleExc.contains part) &&
        ends₂.any (fun ending => pyEndsWith part ending)) :=
      any_congr_mem hp (fun part => by rw [hend part])
    unfold classify_from_parts
    rw [h1 femBiz, h1 maleExc, h1 femNames, h4]
  · unfold classify_gender
    by_cases hstrip : pyStrip (pyLower (username ++ " " ++ fullname)) = ""
    · rw [if_pos hstrip]; right; rfl
    · rw [if_neg hstrip]
      unfold classify_from_parts
      split_ifs <;> simp

/-- Witness for C6: permuted (and duplicated) token and suffix collections
produce the same verdict on a concrete instance. -/
theorem classify_gender_deterministic_order_independent_witness :
    classify_from_parts ["bob"] [] [] ["a", "ya"] ["anna", "bob"] =
      classify_from_parts ["bob"] [] [] ["ya", "a"] ["bob", "anna", "anna"] ∧
    (classify_gender ["bob"] [] [] "x" "y" = "female" ∨
      classify_gender ["bob"] [] [] "x" "y" = "keep") :=
  classify_gender_deterministic_order_independent ["bob"] [] [] "x" "y"
    ["anna", "bob"] ["bob", "anna", "anna"] ["a", "ya"] ["ya", "a"]
    (by intro x; simp only [List.mem_cons, List.not_mem_nil]; tauto)
    (by intro x; simp only [List.mem_cons, List.not_mem_nil]; tauto)

/-- The last-resort loop of `classify_gender` fires exactly when some
token longer than three characters, not itself a male exception, carries a
female ending. -/
lemma ending_any_iff {parts maleExc endings : List String} :
    (parts.any fun part =>
        decide (3 < pyLen part) && !(maleExc.contains part) &&
        endings.any (fun ending => pyEndsWith part ending)) = true ↔
      ∃ t ∈ parts, 3 < pyLen t ∧ t ∉ maleExc ∧
        ∃ e ∈ endings, pyEndsWith t e = true := by
  rw [List.any_eq_true]
  constructor
  · rintro ⟨t, htp, hcond⟩
    simp only [Bool.and_eq_true, decide_eq_true_eq, Bool.not_eq_true'] at hcond
    obtain ⟨⟨hlen, hnm⟩, hend⟩ := hcond
    refine ⟨t, htp, hlen, fun hmem => ?_, List.any_eq_true.mp hend⟩
    have hc : maleExc.contains t = true := List.elem_iff.mpr hmem
    exact (Bool.eq_false_iff.mp hnm) hc
  · rintro ⟨t, htp, hlen, hnm, e, he, hend⟩
    refine ⟨t, htp, ?_⟩
    simp only [Bool.and_eq_true, decide_eq_true_eq, Bool.not_eq_true']
    refine ⟨⟨hlen, ?_⟩, List.any_eq_true.mpr ⟨e, he, hend⟩⟩
    exact Bool.eq_false_iff.mpr (fun hc => hnm (List.elem_iff.mp hc))

/-- C3: when no token matches the female business keyword set, the male
exception set, or the female name set, the classifier returns `"female"`
exactly when some token of more than three characters that is not itself a
male exception ends with one of the female endings, and `"keep"`
otherwise. -/
theorem classify_endings_last_resort (maleExc femBiz femNames : List String)
    (username fullname : String)
    (hb : ∀ t ∈ tokensOf username fullname, t ∉ femBiz)
    (hm : ∀ t ∈ tokensOf username fullname, t ∉ maleExc)
    (hfn : ∀ t ∈ tokensOf username fullname, t ∉ femNames) :
    ((∃ t ∈ tokensOf username fullname, 3 < pyLen t ∧ t ∉ maleExc ∧
        ∃ e ∈ FEMALE_ENDINGS, pyEndsWith t e = true) →
      classify_gender maleExc femBiz femNames username fullname = "female") ∧
    ((¬ ∃ t ∈ tokensOf username fullname, 3 < pyLen t ∧ t ∉ maleExc ∧
        ∃ e ∈ FEMALE_ENDINGS, pyEndsWith t e = true) →
      classify_gender maleExc femBiz femNames username fullname = "keep") := by
  unfold classify_gender
  by_cases hstrip : pyStrip (pyLower (username ++ " " ++ fullname)) = ""
  · rw [if_pos hstrip]
    have hnil := tokensOf_of_strip_empty hstrip
    constructor
    · rintro ⟨t, ht, -⟩
      rw [hnil] at ht
      cases ht
    · intro
      rfl
  · rw [if_neg hstrip]
    unfold classify_from_parts
    rw [any_contains_eq_false (fun k hk hkt => hb k hkt hk),
        any_contains_eq_false (fun k hk hkt => hm k hkt hk),
        any_contains_eq_false (fun k hk hkt => hfn k hkt hk)]
    simp only [Bool.false_eq_true, if_false]
    constructor
    · intro hex
      rw [if_pos (ending_any_iff.mpr hex)]
    · intro hnex
      rw [if_neg (fun hc => hnex (ending_any_iff.mp hc))]

/-- Witness for C3 at a concrete profile: with empty word lists, `"anna"`
(length four, ending `"a"`) classifies `"female"`. -/
theorem classify_endings_last_resort_witness :
    classify_gender [] [] [] "anna" "" = "female" :=
  (classify_endings_last_resort [] [] [] "anna" ""
      (by simp) (by simp) (by simp)).1
    ⟨"anna", by decide, by decide, by simp, "a", by decide, by decide⟩

end CsvDataFilter
